import Mathlib

set_option maxHeartbeats 1000000

/-
Shallow embedding of the "waba" WhatsApp webhook bridge (src/main.py, served
as app.py).  The SQLite tables chat_history and pending_msgs are modelled as
lists of rows in insertion order; `ORDER BY ts ASC` is modelled as a stable
insertion sort on the ts column (SQLite scans the (user_id, ts) index, ties
resolved by rowid, i.e. insertion order).  Python `len`/slicing on `str`
count unicode code points, as do `String.length`/`List Char` operations here.
-/

-- === Data model (init_db): chat_history and pending_msgs rows ===

structure ChatRow where
  user_id : String
  role : String
  content : String
  ts : Nat
deriving DecidableEq, Repr

structure PendingRow where
  user_id : String
  content : String
  ts : Nat
  processed : Bool
deriving DecidableEq, Repr

-- Stable sort by the ts column (model of ORDER BY ts ASC).
def sortChatByTs (l : List ChatRow) : List ChatRow :=
  List.insertionSort (fun a b => a.ts ≤ b.ts) l

def sortPendingByTs (l : List PendingRow) : List PendingRow :=
  List.insertionSort (fun a b => a.ts ≤ b.ts) l

-- === Persistence helpers ===

-- save_msg: INSERT INTO chat_history(user_id, role, content, ts).
def save_msg (hist : List ChatRow) (user_id role content : String) (now : Nat) :
    List ChatRow :=
  hist ++ [⟨user_id, role, content, now⟩]

-- enqueue_pending: one INSERT into chat_history (role "user") and one into
-- pending_msgs (processed = 0), both with the same timestamp `now`.
def enqueue_pending (hist : List ChatRow) (pend : List PendingRow)
    (user_id content : String) (now : Nat) : List ChatRow × List PendingRow :=
  (hist ++ [⟨user_id, "user", content, now⟩],
   pend ++ [⟨user_id, content, now, false⟩])

-- fetch_unprocessed: SELECT content, ts FROM pending_msgs
--   WHERE user_id=? AND processed=0 ORDER BY ts ASC.
def fetch_unprocessed (pend : List PendingRow) (user_id : String) :
    List (String × Nat) :=
  (sortPendingByTs (pend.filter (fun r => r.user_id == user_id && !r.processed))).map
    (fun r => (r.content, r.ts))

-- mark_processed: UPDATE pending_msgs SET processed=1
--   WHERE user_id=? AND processed=0.
def mark_processed (pend : List PendingRow) (user_id : String) : List PendingRow :=
  pend.map (fun r =>
    if r.user_id == user_id && !r.processed then { r with processed := true } else r)

-- === get_recent_history ===

-- Python list slice rows[-(k):]; note that for k = 0 this is rows[0:], the
-- whole list (the -0 quirk), not the empty list.
def takeLastPy {α : Type} (l : List α) (k : Nat) : List α :=
  if k = 0 then l else l.drop (l.length - k)

-- The character-budget loop of get_recent_history: walks the (role, content)
-- pairs most-recent-first, appending to `kept` until adding a row would
-- exceed max_chars (the first row is always kept).
def trimByChars (max_chars : Nat) :
    List (String × String) → Nat → List (String × String) → List (String × String)
  | [], _, kept => kept
  | (role, content) :: rest, total, kept =>
    if total + content.length > max_chars ∧ kept ≠ [] then kept
    else trimByChars max_chars rest (total + content.length) (kept ++ [(role, content)])

-- get_recent_history(user_id, max_chars=6000, max_turns=10): fetch this
-- user's rows in ts order, keep the last max_turns*2, trim by characters
-- from the most recent backwards, return in chronological order.
def get_recent_history (hist : List ChatRow) (user_id : String)
    (max_chars : Nat := 6000) (max_turns : Nat := 10) : List (String × String) :=
  let rows := (sortChatByTs (hist.filter (fun r => r.user_id == user_id))).map
    (fun r => (r.role, r.content))
  let rows2 := takeLastPy rows (max_turns * 2)
  (trimByChars max_chars rows2.reverse 0 []).reverse

-- === Helper lemmas about mark_processed / fetch_unprocessed ===

lemma mark_processed_filter_nil (p : List PendingRow) (u : String) :
    (mark_processed p u).filter (fun r => r.user_id == u && !r.processed) = [] := by
  induction p with
  | nil => rfl
  | cons r rest ih =>
    simp only [mark_processed, List.map_cons, List.filter_cons] at ih ⊢
    by_cases h : (r.user_id == u && !r.processed) = true
    · rw [if_pos h]
      simp only [Bool.not_true, Bool.and_false, Bool.false_eq_true, if_false]
      exact ih
    · rw [if_neg h]
      simp only [h, if_false]
      exact ih

lemma fetch_unprocessed_mark_nil (p : List PendingRow) (u : String) :
    fetch_unprocessed (mark_processed p u) u = [] := by
  rw [fetch_unprocessed, mark_processed_filter_nil]
  rfl

lemma mark_processed_all (p : List PendingRow) (u : String) :
    (mark_processed p u).all (fun r => !(r.user_id == u) || r.processed) = true := by
  induction p with
  | nil => rfl
  | cons r rest ih =>
    simp only [mark_processed, List.map_cons, List.all_cons] at ih ⊢
    rw [Bool.and_eq_true]
    refine ⟨?_, ih⟩
    by_cases h : (r.user_id == u && !r.processed) = true
    · rw [if_pos h]
      simp
    · rw [if_neg h]
      rw [Bool.and_eq_true] at h
      rcases Decidable.not_and_iff_or_not.mp h with h1 | h1
      · simp [Bool.eq_false_iff.mpr h1]
      · have h2 : r.processed = true := by
          revert h1; cases r.processed <;> simp
        simp [h2]

/-- C5: mark_processed(user_id) sets processed=true on every pending row that
is currently false for that user — it acts on the whole current table, so any
entry enqueued after an Aggregation cycle's fetch_unprocessed snapshot (the
`extra` rows, appended after the `snapshot` the cycle fetched) is marked as
well; afterwards fetch_unprocessed finds nothing for that user. -/
theorem mark_processed_unscoped (snapshot extra : List PendingRow) (u : String) :
    fetch_unprocessed (mark_processed (snapshot ++ extra) u) u = [] ∧
    (mark_processed (snapshot ++ extra) u).all
      (fun r => !(r.user_id == u) || r.processed) = true :=
  ⟨fetch_unprocessed_mark_nil (snapshot ++ extra) u,
   mark_processed_all (snapshot ++ extra) u⟩

/-- C6: mark_processed is idempotent — with no enqueue in between, running the
UPDATE twice leaves the pending table exactly as after running it once. -/
theorem mark_processed_idempotent (p : List PendingRow) (u : String) :
    mark_processed (mark_processed p u) u = mark_processed p u := by
  induction p with
  | nil => rfl
  | cons r rest ih =>
    simp only [mark_processed, List.map_cons] at ih ⊢
    rw [ih]
    by_cases h : (r.user_id == u && !r.processed) = true
    · rw [if_pos h]
      simp
    · rw [if_neg h, if_neg h]

-- === Facts about the trimming loop of get_recent_history ===

-- Cumulative content length of a (role, content) list.
def contentLen (l : List (String × String)) : Nat :=
  (l.map (fun p => p.2.length)).sum

lemma contentLen_append (a b : List (String × String)) :
    contentLen (a ++ b) = contentLen a + contentLen b := by
  simp [contentLen]

lemma contentLen_reverse (l : List (String × String)) :
    contentLen l.reverse = contentLen l := by
  simp [contentLen, List.map_reverse, List.sum_reverse]

lemma trimByChars_shape (mc : Nat) (l : List (String × String)) :
    ∀ (total : Nat) (kept : List (String × String)),
      ∃ k, trimByChars mc l total kept = kept ++ l.take k := by
  induction l with
  | nil =>
    intro total kept
    exact ⟨0, by simp [trimByChars]⟩
  | cons p rest ih =>
    intro total kept
    obtain ⟨role, content⟩ := p
    by_cases h : total + content.length > mc ∧ kept ≠ []
    · exact ⟨0, by simp [trimByChars, if_pos h]⟩
    · obtain ⟨k, hk⟩ := ih (total + content.length) (kept ++ [(role, content)])
      refine ⟨k + 1, ?_⟩
      simp only [trimByChars, if_neg h, hk, List.take_succ_cons, List.append_assoc,
        List.singleton_append]

lemma trimByChars_budget (mc : Nat) (l : List (String × String)) :
    ∀ (kept : List (String × String)),
      (contentLen kept ≤ mc ∨ kept.length ≤ 1) →
      contentLen (trimByChars mc l (contentLen kept) kept) ≤ mc ∨
        (trimByChars mc l (contentLen kept) kept).length ≤ 1 := by
  induction l with
  | nil =>
    intro kept hkept
    simpa [trimByChars] using hkept
  | cons p rest ih =>
    intro kept hkept
    obtain ⟨role, content⟩ := p
    by_cases h : contentLen kept + content.length > mc ∧ kept ≠ []
    · simpa [trimByChars, if_pos h] using hkept
    · have hnext : contentLen (kept ++ [(role, content)]) =
          contentLen kept + content.length := by
        simp [contentLen_append, contentLen]
      have hpre : contentLen (kept ++ [(role, content)]) ≤ mc ∨
          (kept ++ [(role, content)]).length ≤ 1 := by
        rcases Decidable.not_and_iff_or_not.mp h with h1 | h1
        · left
          rw [hnext]
          omega
        · right
          have : kept = [] := by
            by_contra hc
            exact h1 hc
          simp [this]
      have := ih (kept ++ [(role, content)]) hpre
      rw [hnext] at this
      simpa [trimByChars, if_neg h] using this

lemma trimByChars_ne_nil (mc : Nat) (p : String × String)
    (rest : List (String × String)) (total : Nat) :
    trimByChars mc (p :: rest) total [] ≠ [] := by
  obtain ⟨role, content⟩ := p
  have h : ¬(total + content.length > mc ∧ ([] : List (String × String)) ≠ []) := by
    simp
  obtain ⟨k, hk⟩ := trimByChars_shape mc rest (total + content.length) [(role, content)]
  simp only [trimByChars, if_neg h, List.nil_append]
  rw [hk]
  simp

/-- C1 counterexample: for a user with two one-character history rows,
max_chars = 100 and max_turns = 1, get_recent_history returns 2 entries —
more than the max_turns = 1 entries the claim allows (the code keeps the last
max_turns*2 rows, not max_turns). -/
theorem get_recent_history_exceeds_max_turns :
    ¬ ((get_recent_history [⟨"u", "user", "a", 1⟩, ⟨"u", "user", "b", 2⟩]
        "u" 100 1).length ≤ 1) := by
  decide

/-- C1 (amended): for max_turns ≥ 1 and a user with at least one history row,
get_recent_history returns at most 2*max_turns entries (not max_turns: the
code keeps the last max_turns*2 rows, a turn counting its user and assistant
rows separately); the cumulative content length does not exceed max_chars
unless the result is the single most recent entry; the result is nonempty;
and it is chronologically ordered, oldest first — it is the projection of a
ts-sorted sublist of the user's ts-sorted history. -/
theorem get_recent_history_bounds (hist : List ChatRow) (u : String)
    (mc mt : Nat) (hmt : 1 ≤ mt)
    (hne : hist.filter (fun r => r.user_id == u) ≠ []) :
    (get_recent_history hist u mc mt).length ≤ 2 * mt ∧
    (contentLen (get_recent_history hist u mc mt) ≤ mc ∨
      (get_recent_history hist u mc mt).length = 1) ∧
    get_recent_history hist u mc mt ≠ [] ∧
    ∃ sub : List ChatRow,
      sub.Sublist (sortChatByTs (hist.filter (fun r => r.user_id == u))) ∧
      List.Sorted (fun a b => a.ts ≤ b.ts) sub ∧
      get_recent_history hist u mc mt = sub.map (fun r => (r.role, r.content)) := by
  haveI htot : IsTotal ChatRow (fun a b => a.ts ≤ b.ts) :=
    ⟨fun a b => Nat.le_total a.ts b.ts⟩
  haveI htrans : IsTrans ChatRow (fun a b => a.ts ≤ b.ts) :=
    ⟨fun a b c hab hbc => Nat.le_trans hab hbc⟩
  have hsortlen : (sortChatByTs (hist.filter (fun r => r.user_id == u))).length =
      (hist.filter (fun r => r.user_id == u)).length :=
    (List.perm_insertionSort _ _).length_eq
  have hsortne : sortChatByTs (hist.filter (fun r => r.user_id == u)) ≠ [] := by
    intro hcon
    apply hne
    have := hsortlen
    rw [hcon] at this
    exact List.length_eq_zero.mp this.symm
  -- names for the pipeline stages
  have hout : get_recent_history hist u mc mt =
      (trimByChars mc
        (takeLastPy ((sortChatByTs (hist.filter (fun r => r.user_id == u))).map
          (fun r => (r.role, r.content))) (mt * 2)).reverse 0 []).reverse := rfl
  generalize hsorted : sortChatByTs (hist.filter (fun r => r.user_id == u)) = sorted at *
  generalize hrows : sorted.map (fun r => (r.role, r.content)) = rows at *
  generalize hrows2 : takeLastPy rows (mt * 2) = rows2 at *
  have hk2 : mt * 2 ≠ 0 := by omega
  have hrowslen : rows.length = sorted.length := by
    rw [← hrows]
    exact List.length_map _ _
  have hrowsne : rows ≠ [] := by
    intro hcon
    apply hsortne
    rw [hcon] at hrowslen
    exact List.length_eq_zero.mp hrowslen.symm
  have hrows2drop : rows2 = rows.drop (rows.length - mt * 2) := by
    rw [← hrows2, takeLastPy, if_neg hk2]
  have hrows2len : rows2.length = rows.length - (rows.length - mt * 2) := by
    rw [hrows2drop, List.length_drop]
  have hrowslen1 : 1 ≤ rows.length := by
    cases rows with
    | nil => exact absurd rfl hrowsne
    | cons a l => simp
  have hrows2ne : rows2 ≠ [] := by
    intro hcon
    rw [hcon] at hrows2len
    simp at hrows2len
    omega
  -- the trim loop returns a prefix of the reversed rows
  obtain ⟨k, hk⟩ := trimByChars_shape mc rows2.reverse 0 []
  rw [List.nil_append] at hk
  have hsuf1 : get_recent_history hist u mc mt <:+ rows2 := by
    rw [hout, hk]
    apply List.reverse_prefix.mp
    rw [List.reverse_reverse]
    exact List.take_prefix k rows2.reverse
  have hsuf2 : rows2 <:+ rows := by
    rw [hrows2drop]
    exact List.drop_suffix _ _
  have hsuf : get_recent_history hist u mc mt <:+ rows := hsuf1.trans hsuf2
  have hlen1 : (get_recent_history hist u mc mt).length ≤ rows2.length :=
    hsuf1.length_le
  have hlenb : (get_recent_history hist u mc mt).length ≤ 2 * mt := by
    rw [hrows2len] at hlen1
    omega
  have hrevne : rows2.reverse ≠ [] := by
    simpa using hrows2ne
  have houtne : get_recent_history hist u mc mt ≠ [] := by
    rw [hout]
    cases hrr : rows2.reverse with
    | nil => exact absurd hrr hrevne
    | cons p rest =>
      simpa using trimByChars_ne_nil mc p rest 0
  have hbudget0 : contentLen (trimByChars mc rows2.reverse 0 []) ≤ mc ∨
      (trimByChars mc rows2.reverse 0 []).length ≤ 1 := by
    have h0 : contentLen ([] : List (String × String)) = 0 := rfl
    have hb := trimByChars_budget mc rows2.reverse []
      (Or.inr (by simp))
    rw [h0] at hb
    exact hb
  have hbudget : contentLen (get_recent_history hist u mc mt) ≤ mc ∨
      (get_recent_history hist u mc mt).length = 1 := by
    rcases hbudget0 with hb | hb
    · left
      rw [hout, contentLen_reverse]
      exact hb
    · right
      have hn0 : (trimByChars mc rows2.reverse 0 []).length ≠ 0 := by
        intro h0
        apply houtne
        rw [hout, List.length_eq_zero.mp h0]
        rfl
      rw [hout, List.length_reverse]
      omega
  refine ⟨hlenb, hbudget, houtne, ?_⟩
  have hsorted2 : List.Sorted (fun a b : ChatRow => a.ts ≤ b.ts) sorted := by
    rw [← hsorted]
    exact List.sorted_insertionSort _ _
  have hdrop := List.suffix_iff_eq_drop.mp hsuf
  refine ⟨sorted.drop (rows.length - (get_recent_history hist u mc mt).length),
    List.drop_sublist _ _, ?_, ?_⟩
  · exact List.Pairwise.sublist (List.drop_sublist _ _) hsorted2
  · rw [List.map_drop, hrows]
    exact hdrop

/-- Witness for get_recent_history_bounds at a concrete input: two short rows
for user "u", max_chars = 100, max_turns = 1. -/
theorem get_recent_history_bounds_witness :
    (1 ≤ 1) ∧
    (([⟨"u", "user", "a", 1⟩, ⟨"u", "user", "b", 2⟩] : List ChatRow).filter
      (fun r => r.user_id == "u") ≠ []) ∧
    ((get_recent_history [⟨"u", "user", "a", 1⟩, ⟨"u", "user", "b", 2⟩]
        "u" 100 1).length ≤ 2 * 1 ∧
      (contentLen (get_recent_history [⟨"u", "user", "a", 1⟩, ⟨"u", "user", "b", 2⟩]
          "u" 100 1) ≤ 100 ∨
        (get_recent_history [⟨"u", "user", "a", 1⟩, ⟨"u", "user", "b", 2⟩]
          "u" 100 1).length = 1) ∧
      get_recent_history [⟨"u", "user", "a", 1⟩, ⟨"u", "user", "b", 2⟩] "u" 100 1 ≠ [] ∧
      ∃ sub : List ChatRow,
        sub.Sublist (sortChatByTs (([⟨"u", "user", "a", 1⟩, ⟨"u", "user", "b", 2⟩] :
          List ChatRow).filter (fun r => r.user_id == "u"))) ∧
        List.Sorted (fun a b => a.ts ≤ b.ts) sub ∧
        get_recent_history [⟨"u", "user", "a", 1⟩, ⟨"u", "user", "b", 2⟩] "u" 100 1 =
          sub.map (fun r => (r.role, r.content))) :=
  ⟨by decide, by decide,
   get_recent_history_bounds [⟨"u", "user", "a", 1⟩, ⟨"u", "user", "b", 2⟩]
     "u" 100 1 (by decide) (by decide)⟩

-- === Config constants and prompt texts ===

def DEBOUNCE_SECONDS : Nat := 30

def SYSTEM_PROMPT : String := "
Te llamas Sofía Soler, asesora inmobiliaria costarricense, cálida y profesional, de la agencia 506BOX PROPERTY NERDS.
Objetivo: calificar al cliente y llevarlo a un siguiente paso claro (agendar visita o pasar a un asesor humano).

Estilo:
- Tono cercano, respetuoso, con chispa y profesionalismo latino.
- Frases cortas, claras; evita tecnicismos innecesarios.
- Siempre respondes en español de Costa Rica.

Flujo conversacional (estricto, en este orden, UNA pregunta de calificación a la vez):
1) Saludo breve + UNA pregunta de calificación.
2) Identificar: intención (compra/alquiler); zona preferida; zonas cercanas aceptables; tipo de propiedad; presupuesto y moneda;
   habitaciones/baños; metros aproximados; forma de pago/financiamiento (si compra); ventana de visita; mascotas; parqueos.
3) Si la zona está en GAM (Escazú, Santa Ana, Rohrmoser, Sabana, Heredia, Curridabat, etc.), sugiera sutilmente alternativas cercanas.
4) Proponga el siguiente paso (agendar visita o derivar a un asesor humano), confirmando día/horario preferido.

Reglas:
- Máximo 1–2 preguntas por mensaje.
- No dé asesoría legal/tributaria/financiera; sugiera consultar a un profesional cuando corresponda.
- No prometa precios, tasas ni disponibilidad; use lenguaje condicional (“podemos explorar”, “podría estar disponible”).
- Mantenga empatía ante objeciones; ofrezca opciones.
- Si falta información clave, priorice preguntarla antes de enviar listados.
- Si el cliente pide contacto humano, ofrezca pasar con un asesor y pida ventana horaria y medio de contacto.
- Siempre al iniciar la conversación preséntese (Sofía) y pregunte el nombre del cliente.
- Hable en \"usted\" y nunca en \"tú\".
"

-- The fixed user-facing fallback reply used when call_openai_chat returns "".
def FALLBACK_REPLY : String :=
  "Disculpe, tuve un inconveniente técnico al contestar. ¿Podría confirmarme su intención (compra o alquiler) y la zona de interés?"

-- === Python string primitives used by the code ===

-- Python str.strip(): whitespace removed from both ends.
def pyStrip (s : String) : String :=
  String.mk (((s.data.dropWhile Char.isWhitespace).reverse.dropWhile
    Char.isWhitespace).reverse)

-- Python s[:n] on str: code-point slice.
def pyTake (s : String) (n : Nat) : String :=
  String.mk (s.data.take n)

-- === call_openai_chat, modelled at its HTTP boundary ===

-- Outcome of the POST to /v1/chat/completions: either a raised exception
-- (network error, timeout), or a response with an HTTP status code and the
-- extracted choices[0].message.content field (none when the JSON chain
-- yields no string).
inductive HttpResult where
  | exc : HttpResult
  | resp : Nat → Option String → HttpResult
deriving DecidableEq, Repr

-- call_openai_chat: "" when OPENAI_API_KEY is missing, on an exception, on
-- a status >= 400, or when the content chain yields nothing; otherwise the
-- stripped content (which can itself be empty).
def call_openai_chat (apiKeySet : Bool) (r : HttpResult) : String :=
  if !apiKeySet then ""
  else
    match r with
    | .exc => ""
    | .resp status content =>
      if status ≥ 400 then "" else pyStrip (content.getD "")

-- === send_whatsapp_text ===

-- Returns the (phone_number_id, to, truncated body) payload it posts, or
-- none when it bails out before posting (missing token or identifiers).
def send_whatsapp_text (wabaTokenSet : Bool)
    (phone_number_id to_msisdn text : String) :
    Option (String × String × String) :=
  if !wabaTokenSet then none
  else if phone_number_id == "" then none
  else if to_msisdn == "" then none
  else some (phone_number_id, to_msisdn, pyTake text 4000)

-- === debounce_fire (the body after the 30 s sleep elapses uninterrupted) ===

-- "\n".join(f"- {c}" for c, _ in pending)
def joinPending (pending : List (String × Nat)) : String :=
  String.intercalate "\n" (pending.map (fun p => "- " ++ p.1))

def integrationInstruction (joined : String) : String :=
  "Integre y responda en UN solo mensaje considerando estos mensajes recientes:\n"
    ++ joined

-- Observable outcome of one fire: whether the model was invoked, the chat
-- request that was built, the two tables afterwards, and the delivery
-- payload (none = nothing sent).
structure FireOutcome where
  chatCalled : Bool
  request : List (String × String)
  histAfter : List ChatRow
  pendAfter : List PendingRow
  sent : Option (String × String × String)
deriving DecidableEq, Repr

-- debounce_fire: fetch unprocessed entries (exit silently when empty),
-- build the request (system prompt + bounded history + integration
-- instruction over the joined pending contents), call the model (fallback
-- text when the call yields ""), persist the assistant turn, send through
-- the cached phone_number_id when present, mark pending rows processed.
def debounce_fire (user_id : String) (hist : List ChatRow) (pend : List PendingRow)
    (apiKeySet : Bool) (chatHttp : HttpResult) (wabaTokenSet : Bool)
    (phoneIdCached : Option String) (now : Nat) : FireOutcome :=
  let pending := fetch_unprocessed pend user_id
  if pending.isEmpty then
    { chatCalled := false, request := [], histAfter := hist, pendAfter := pend,
      sent := none }
  else
    let history := get_recent_history hist user_id
    let messages := ("system", SYSTEM_PROMPT) ::
      (history ++ [("user", integrationInstruction (joinPending pending))])
    let reply0 := call_openai_chat apiKeySet chatHttp
    let reply := if reply0 == "" then FALLBACK_REPLY else reply0
    let histAfter := save_msg hist user_id "assistant" reply now
    let phone_number_id := phoneIdCached.getD ""
    let sent := if phone_number_id == "" then none
      else send_whatsapp_text wabaTokenSet phone_number_id user_id reply
    { chatCalled := true, request := messages, histAfter := histAfter,
      pendAfter := mark_processed pend user_id, sent := sent }

/-- C7: if fetch_unprocessed returns nothing when the timer fires, the
Aggregation cycle exits silently and changes nothing: no model request is
built or sent, no assistant turn is appended, nothing is delivered, and
mark_processed is not run — both tables come back unchanged. -/
theorem debounce_fire_empty_silent (u : String) (hist : List ChatRow)
    (pend : List PendingRow) (ak : Bool) (hr : HttpResult) (wt : Bool)
    (ph : Option String) (now : Nat)
    (h : fetch_unprocessed pend u = []) :
    debounce_fire u hist pend ak hr wt ph now =
      { chatCalled := false, request := [], histAfter := hist, pendAfter := pend,
        sent := none } := by
  simp [debounce_fire, h]

/-- Witness for debounce_fire_empty_silent: empty pending table. -/
theorem debounce_fire_empty_silent_witness :
    fetch_unprocessed [] "u" = [] ∧
    debounce_fire "u" [] [] true HttpResult.exc true none 0 =
      { chatCalled := false, request := [], histAfter := [], pendAfter := [],
        sent := none } :=
  ⟨by decide,
   debounce_fire_empty_silent "u" [] [] true HttpResult.exc true none 0 (by decide)⟩

lemma fetch_unprocessed_isEmpty_false (pend : List PendingRow) (u : String)
    (h : fetch_unprocessed pend u ≠ []) :
    (fetch_unprocessed pend u).isEmpty = false := by
  cases hfu : fetch_unprocessed pend u with
  | nil => exact absurd hfu h
  | cons a l => rfl

/-- C4: when the reasoning call fails in any way — call_openai_chat returns
"" on a missing key, a raised exception (network error or timeout), a
non-success HTTP status, or an empty/unparseable response — and pending
entries exist, the cycle still runs to completion: the fixed fallback text
is persisted as the assistant turn, delivered over the cached route, and
every currently-unprocessed pending row is marked processed; the raw
failure itself never reaches the user. -/
theorem debounce_fire_fallback (u : String) (hist : List ChatRow)
    (pend : List PendingRow) (ak : Bool) (hr : HttpResult) (pid : String)
    (now : Nat)
    (hfail : call_openai_chat ak hr = "")
    (hpend : fetch_unprocessed pend u ≠ [])
    (hpid : pid ≠ "") (hu : u ≠ "") :
    (debounce_fire u hist pend ak hr true (some pid) now).histAfter =
      hist ++ [⟨u, "assistant", FALLBACK_REPLY, now⟩] ∧
    (debounce_fire u hist pend ak hr true (some pid) now).pendAfter =
      mark_processed pend u ∧
    fetch_unprocessed
      (debounce_fire u hist pend ak hr true (some pid) now).pendAfter u = [] ∧
    (debounce_fire u hist pend ak hr true (some pid) now).sent =
      some (pid, u, FALLBACK_REPLY) := by
  have hie := fetch_unprocessed_isEmpty_false pend u hpend
  have htrunc : pyTake FALLBACK_REPLY 4000 = FALLBACK_REPLY := by decide
  simp [debounce_fire, hie, hfail, send_whatsapp_text, save_msg, hpid, hu, htrunc,
    fetch_unprocessed_mark_nil]

/-- Witness for debounce_fire_fallback: one pending row for user "77", the
chat call raises, the cached route is "15550000000". -/
theorem debounce_fire_fallback_witness :
    call_openai_chat false HttpResult.exc = "" ∧
    fetch_unprocessed [⟨"77", "hola", 1, false⟩] "77" ≠ [] ∧
    ("15550000000" : String) ≠ "" ∧
    ("77" : String) ≠ "" ∧
    ((debounce_fire "77" [] [⟨"77", "hola", 1, false⟩] false HttpResult.exc true
        (some "15550000000") 2).histAfter =
      [] ++ [⟨"77", "assistant", FALLBACK_REPLY, 2⟩] ∧
    (debounce_fire "77" [] [⟨"77", "hola", 1, false⟩] false HttpResult.exc true
        (some "15550000000") 2).pendAfter =
      mark_processed [⟨"77", "hola", 1, false⟩] "77" ∧
    fetch_unprocessed
      (debounce_fire "77" [] [⟨"77", "hola", 1, false⟩] false HttpResult.exc true
        (some "15550000000") 2).pendAfter "77" = [] ∧
    (debounce_fire "77" [] [⟨"77", "hola", 1, false⟩] false HttpResult.exc true
        (some "15550000000") 2).sent =
      some ("15550000000", "77", FALLBACK_REPLY)) :=
  ⟨by decide, by decide, by decide, by decide,
   debounce_fire_fallback "77" [] [⟨"77", "hola", 1, false⟩] false HttpResult.exc
     "15550000000" 2 (by decide) (by decide) (by decide) (by decide)⟩

/-- C8: when no phone_number_id is cached for the user at fire time, the
delivery step is skipped, but the reply (the model answer, or the fallback)
is still persisted as an assistant ConversationTurn and the pending rows are
still marked processed, so the conversation context is preserved for the
next cycle. -/
theorem debounce_fire_no_route (u : String) (hist : List ChatRow)
    (pend : List PendingRow) (ak : Bool) (hr : HttpResult) (wt : Bool) (now : Nat)
    (hpend : fetch_unprocessed pend u ≠ []) :
    (debounce_fire u hist pend ak hr wt none now).sent = none ∧
    (debounce_fire u hist pend ak hr wt none now).histAfter =
      hist ++ [⟨u, "assistant",
        if call_openai_chat ak hr == "" then FALLBACK_REPLY
        else call_openai_chat ak hr, now⟩] ∧
    (debounce_fire u hist pend ak hr wt none now).pendAfter =
      mark_processed pend u := by
  have hie := fetch_unprocessed_isEmpty_false pend u hpend
  simp [debounce_fire, hie, save_msg]

/-- Witness for debounce_fire_no_route: one pending row, a successful chat
answer, but no cached route. -/
theorem debounce_fire_no_route_witness :
    fetch_unprocessed [⟨"77", "hola", 1, false⟩] "77" ≠ [] ∧
    ((debounce_fire "77" [] [⟨"77", "hola", 1, false⟩] true
        (HttpResult.resp 200 (some "Con gusto")) true none 2).sent = none ∧
    (debounce_fire "77" [] [⟨"77", "hola", 1, false⟩] true
        (HttpResult.resp 200 (some "Con gusto")) true none 2).histAfter =
      [] ++ [⟨"77", "assistant",
        if call_openai_chat true (HttpResult.resp 200 (some "Con gusto")) == ""
        then FALLBACK_REPLY
        else call_openai_chat true (HttpResult.resp 200 (some "Con gusto")), 2⟩] ∧
    (debounce_fire "77" [] [⟨"77", "hola", 1, false⟩] true
        (HttpResult.resp 200 (some "Con gusto")) true none 2).pendAfter =
      mark_processed [⟨"77", "hola", 1, false⟩] "77") :=
  ⟨by decide,
   debounce_fire_no_route "77" [] [⟨"77", "hola", 1, false⟩] true
     (HttpResult.resp 200 (some "Con gusto")) true 2 (by decide)⟩

-- === Webhook message handlers ===

-- Generic insert-or-replace for the process-wide string-keyed maps
-- (PHONE_ID_CACHE, DEBOUNCE_TASKS).
def mapSet {β : Type} (m : List (String × β)) (u : String) (v : β) :
    List (String × β) :=
  (u, v) :: m.filter (fun p => !(p.1 == u))

def mapLookup {β : Type} (m : List (String × β)) (u : String) : Option β :=
  (m.find? (fun p => p.1 == u)).map (fun p => p.2)

def mapDel {β : Type} (m : List (String × β)) (u : String) : List (String × β) :=
  m.filter (fun p => !(p.1 == u))

-- Observable webhook-handler state: the two tables, the PHONE_ID_CACHE,
-- and the log of schedule_debounce invocations (each entry = one cancel +
-- re-arm of that user's timer; the timer-map semantics themselves are
-- modelled separately below).
structure WebState where
  hist : List ChatRow
  pend : List PendingRow
  phoneCache : List (String × String)
  sched : List String
deriving DecidableEq, Repr

-- schedule_debounce as seen from the webhook: caches phone_number_id when
-- truthy (non-None, non-empty), then cancels and re-arms the user's timer
-- (recorded in the log).
def schedule_debounce_effects (st : WebState) (u : String) (pid : Option String) :
    WebState :=
  { st with
    phoneCache := if pid.getD "" == "" then st.phoneCache
      else mapSet st.phoneCache u (pid.getD ""),
    sched := st.sched ++ [u] }

-- webhook, text branch: body = (msg.get("text", {}) or {}).get("body", "")
-- or ""; enqueue + schedule only when body.strip() is truthy.
def handle_text (st : WebState) (u : String) (pid : Option String)
    (body : Option String) (now : Nat) : WebState :=
  let user_text := body.getD ""
  if pyStrip user_text == "" then st
  else
    let hp := enqueue_pending st.hist st.pend u user_text now
    schedule_debounce_effects { st with hist := hp.1, pend := hp.2 } u pid

-- The normalized text a media branch ends up with: "" unless the media URL
-- resolved (truthy), the download succeeded, and the external
-- transcription/description collaborator returned text.  mediaUrl,
-- downloadOk and collaboratorText are the outcomes of the three external
-- calls (wa_get_media_url, wa_download_media, openai_transcribe_audio /
-- openai_describe_image).
def mediaText (mediaUrl : Option String) (downloadOk : Bool)
    (collaboratorText : String) : String :=
  if mediaUrl.getD "" == "" then ""
  else if downloadOk then collaboratorText else ""

def AUDIO_FAIL_TEXT : String := "[Audio recibido]: (no se pudo transcribir)"

def IMAGE_FAIL_TEXT : String := "[Imagen recibida]: (no se pudo analizar)"

-- webhook, audio branch: skip entirely when audio.get("id") is falsy;
-- otherwise enqueue "[Audio transcrito]: ..." on success or the failure
-- placeholder, then schedule the debounce timer.
def handle_audio (st : WebState) (u : String) (pid : Option String)
    (media_id : Option String) (mediaUrl : Option String) (downloadOk : Bool)
    (transcript_result : String) (now : Nat) : WebState :=
  if media_id.getD "" == "" then st
  else
    let transcript := mediaText mediaUrl downloadOk transcript_result
    let content := if transcript == "" then AUDIO_FAIL_TEXT
      else "[Audio transcrito]: " ++ transcript
    let hp := enqueue_pending st.hist st.pend u content now
    schedule_debounce_effects { st with hist := hp.1, pend := hp.2 } u pid

-- webhook, image branch: skip entirely when image.get("id") is falsy;
-- otherwise enqueue "[Imagen analizada]: ..." on success or the failure
-- placeholder, then schedule the debounce timer.
def handle_image (st : WebState) (u : String) (pid : Option String)
    (media_id : Option String) (mediaUrl : Option String) (downloadOk : Bool)
    (caption_result : String) (now : Nat) : WebState :=
  if media_id.getD "" == "" then st
  else
    let caption := mediaText mediaUrl downloadOk caption_result
    let content := if caption == "" then IMAGE_FAIL_TEXT
      else "[Imagen analizada]: " ++ caption
    let hp := enqueue_pending st.hist st.pend u content now
    schedule_debounce_effects { st with hist := hp.1, pend := hp.2 } u pid

/-- C9: an inbound text whose body is empty or whitespace-only is ignored
entirely: the handler returns the state unchanged — no PendingEntry, no
ConversationTurn, no phone-cache update, and no debounce timer armed or
reset for that user. -/
theorem webhook_blank_text_ignored (st : WebState) (u : String)
    (pid : Option String) (body : Option String) (now : Nat)
    (h : pyStrip (body.getD "") = "") :
    handle_text st u pid body now = st := by
  simp [handle_text, h]

/-- Witness for webhook_blank_text_ignored: a body of spaces and a tab. -/
theorem webhook_blank_text_ignored_witness :
    pyStrip ((some "  \t ").getD "") = "" ∧
    handle_text ⟨[], [], [], []⟩ "77" (some "123") (some "  \t ") 5 =
      ⟨[], [], [], []⟩ :=
  ⟨by decide,
   webhook_blank_text_ignored ⟨[], [], [], []⟩ "77" (some "123") (some "  \t ") 5
     (by decide)⟩

/-- C10: an audio or image message whose payload lacks a (truthy) media id is
skipped entirely — nothing enqueued, no timer armed — while a message whose
media id is present but whose URL resolution, download, or
transcription/description fails (mediaText = "") enqueues the failure
placeholder text and arms the debounce timer normally. -/
theorem webhook_media_id_gate (st : WebState) (u : String) (pid : Option String)
    (now : Nat) (murlA murlI : Option String) (dokA dokI : Bool)
    (asr cap : String) (mA mI : String)
    (hmA : mA ≠ "") (hmI : mI ≠ "")
    (hfA : mediaText murlA dokA asr = "")
    (hfI : mediaText murlI dokI cap = "") :
    handle_audio st u pid none murlA dokA asr now = st ∧
    handle_audio st u pid (some "") murlA dokA asr now = st ∧
    handle_image st u pid none murlI dokI cap now = st ∧
    handle_image st u pid (some "") murlI dokI cap now = st ∧
    (handle_audio st u pid (some mA) murlA dokA asr now).pend =
      st.pend ++ [⟨u, AUDIO_FAIL_TEXT, now, false⟩] ∧
    (handle_audio st u pid (some mA) murlA dokA asr now).hist =
      st.hist ++ [⟨u, "user", AUDIO_FAIL_TEXT, now⟩] ∧
    (handle_audio st u pid (some mA) murlA dokA asr now).sched =
      st.sched ++ [u] ∧
    (handle_image st u pid (some mI) murlI dokI cap now).pend =
      st.pend ++ [⟨u, IMAGE_FAIL_TEXT, now, false⟩] ∧
    (handle_image st u pid (some mI) murlI dokI cap now).hist =
      st.hist ++ [⟨u, "user", IMAGE_FAIL_TEXT, now⟩] ∧
    (handle_image st u pid (some mI) murlI dokI cap now).sched =
      st.sched ++ [u] := by
  refine ⟨by simp [handle_audio], by simp [handle_audio],
    by simp [handle_image], by simp [handle_image], ?_, ?_, ?_, ?_, ?_, ?_⟩ <;>
    simp [handle_audio, handle_image, hmA, hmI, hfA, hfI, enqueue_pending,
      schedule_debounce_effects]

/-- Witness for webhook_media_id_gate: media ids "m1"/"m2" present but the
media URL lookup returned None, so the placeholder path is taken. -/
theorem webhook_media_id_gate_witness :
    ("m1" : String) ≠ "" ∧
    ("m2" : String) ≠ "" ∧
    mediaText none false "" = "" ∧
    mediaText (some "") true "x" = "" ∧
    (handle_audio ⟨[], [], [], []⟩ "77" none none none false "" 5 =
      ⟨[], [], [], []⟩ ∧
    handle_audio ⟨[], [], [], []⟩ "77" none (some "") none false "" 5 =
      ⟨[], [], [], []⟩ ∧
    handle_image ⟨[], [], [], []⟩ "77" none none (some "") true "x" 5 =
      ⟨[], [], [], []⟩ ∧
    handle_image ⟨[], [], [], []⟩ "77" none (some "") (some "") true "x" 5 =
      ⟨[], [], [], []⟩ ∧
    (handle_audio ⟨[], [], [], []⟩ "77" none (some "m1") none false "" 5).pend =
      [] ++ [⟨"77", AUDIO_FAIL_TEXT, 5, false⟩] ∧
    (handle_audio ⟨[], [], [], []⟩ "77" none (some "m1") none false "" 5).hist =
      [] ++ [⟨"77", "user", AUDIO_FAIL_TEXT, 5⟩] ∧
    (handle_audio ⟨[], [], [], []⟩ "77" none (some "m1") none false "" 5).sched =
      [] ++ ["77"] ∧
    (handle_image ⟨[], [], [], []⟩ "77" none (some "m2") (some "") true "x" 5).pend =
      [] ++ [⟨"77", IMAGE_FAIL_TEXT, 5, false⟩] ∧
    (handle_image ⟨[], [], [], []⟩ "77" none (some "m2") (some "") true "x" 5).hist =
      [] ++ [⟨"77", "user", IMAGE_FAIL_TEXT, 5⟩] ∧
    (handle_image ⟨[], [], [], []⟩ "77" none (some "m2") (some "") true "x" 5).sched =
      [] ++ ["77"]) :=
  ⟨by decide, by decide, by decide, by decide,
   webhook_media_id_gate ⟨[], [], [], []⟩ "77" none 5 none (some "") false true
     "" "x" "m1" "m2" (by decide) (by decide) (by decide) (by decide)⟩

-- === Debounce timeline semantics (schedule_debounce + debounce_fire) ===

-- One user's arrival timeline, processed in arrival order.  The accumulator
-- `some`-state is the armed timer: its fire deadline (arm time +
-- DEBOUNCE_SECONDS) and the unprocessed batch it would drain.  A message
-- arriving strictly before the deadline cancels the sleeping task and
-- re-arms it at its own time + D (schedule_debounce); otherwise the timer
-- has already fired at the deadline, draining its batch (debounce_fire),
-- and the message starts a fresh window.  Output: the fired Aggregation
-- cycles as (fire time, drained contents in ts order).
def debounceRun (D : Nat) : Nat → List String → List (Nat × String) →
    List (Nat × List String)
  | deadline, batch, [] => [(deadline, batch)]
  | deadline, batch, (t, c) :: rest =>
    if t < deadline then debounceRun D (t + D) (batch ++ [c]) rest
    else (deadline, batch) :: debounceRun D (t + D) [c] rest

def debounceCycles (D : Nat) : List (Nat × String) → List (Nat × List String)
  | [] => []
  | (t, c) :: rest => debounceRun D (t + D) [c] rest

-- Each arrival falls strictly inside the debounce window opened by its
-- predecessor (tprev is the previous arrival time).
def withinWindow (D : Nat) : Nat → List (Nat × String) → Bool
  | _, [] => true
  | tprev, (t, _) :: rest => decide (t < tprev + D) && withinWindow D t rest

-- Arrival time of the last message (tprev when the list is empty).
def lastArrival (tprev : Nat) (msgs : List (Nat × String)) : Nat :=
  (msgs.map Prod.fst).getLastD tprev

lemma lastArrival_cons (tprev t : Nat) (c : String) (rest : List (Nat × String)) :
    lastArrival tprev ((t, c) :: rest) = lastArrival t rest := by
  simp only [lastArrival, List.map_cons]
  exact List.getLastD_cons tprev t _

lemma debounceRun_within (D : Nat) (msgs : List (Nat × String)) :
    ∀ (tprev : Nat) (batch : List String),
      withinWindow D tprev msgs = true →
      debounceRun D (tprev + D) batch msgs =
        [(lastArrival tprev msgs + D, batch ++ msgs.map Prod.snd)] := by
  induction msgs with
  | nil =>
    intro tprev batch _
    simp [debounceRun, lastArrival]
  | cons m rest ih =>
    intro tprev batch h
    obtain ⟨t, c⟩ := m
    simp only [withinWindow, Bool.and_eq_true, decide_eq_true_eq] at h
    obtain ⟨ht, hrest⟩ := h
    simp only [debounceRun, if_pos ht]
    rw [ih t (batch ++ [c]) hrest, lastArrival_cons]
    simp

/-- C2: for a burst of N messages from one user in which every message
arrives strictly before the previous debounce window expires, exactly one
Aggregation cycle fires; it fires DEBOUNCE_SECONDS after the last message,
and the batch it drains (from which debounce_fire builds its request)
contains the normalized content of all N messages, in order. -/
theorem debounce_single_cycle (t0 : Nat) (c0 : String)
    (rest : List (Nat × String))
    (h : withinWindow DEBOUNCE_SECONDS t0 rest = true) :
    debounceCycles DEBOUNCE_SECONDS ((t0, c0) :: rest) =
      [(lastArrival t0 rest + DEBOUNCE_SECONDS, c0 :: rest.map Prod.snd)] := by
  simp only [debounceCycles]
  rw [debounceRun_within DEBOUNCE_SECONDS rest t0 [c0] h]
  simp

/-- Witness for debounce_single_cycle: "Hola" at t=0 and "quiero alquilar"
at t=3 — one cycle at t=33 containing both contents. -/
theorem debounce_single_cycle_witness :
    withinWindow DEBOUNCE_SECONDS 0 [(3, "quiero alquilar")] = true ∧
    debounceCycles DEBOUNCE_SECONDS [(0, "Hola"), (3, "quiero alquilar")] =
      [(lastArrival 0 [(3, "quiero alquilar")] + DEBOUNCE_SECONDS,
        "Hola" :: [(3, "quiero alquilar")].map Prod.snd)] :=
  ⟨by decide, debounce_single_cycle 0 "Hola" [(3, "quiero alquilar")] (by decide)⟩

-- === DEBOUNCE_TASKS: the per-user timer-task map ===

-- asyncio task states as the code observes them: live = not done and not
-- yet cancel-requested (old.done() false, claim's "live"); completed =
-- ran to its end; cancelled = cancel() was requested.
inductive TaskStatus where
  | live : TaskStatus
  | completed : TaskStatus
  | cancelled : TaskStatus
deriving DecidableEq, Repr

structure TaskRec where
  id : Nat
  user : String
  status : TaskStatus
deriving DecidableEq, Repr

-- tasks: every task ever created (ids from a counter); timerMap: the
-- DEBOUNCE_TASKS dict, user -> id of the task on record.
structure SchedState where
  tasks : List TaskRec
  timerMap : List (String × Nat)
  nextId : Nat
deriving DecidableEq, Repr

def statusOf (tasks : List TaskRec) (id : Nat) : Option TaskStatus :=
  (tasks.find? (fun t => t.id == id)).map (fun t => t.status)

-- schedule_debounce: old = DEBOUNCE_TASKS.get(user_id); if old and not
-- old.done(): old.cancel(); then create a fresh task for debounce_fire and
-- store it under the user's key.
def schedule_debounce (u : String) (s : SchedState) : SchedState :=
  let tasks1 :=
    match mapLookup s.timerMap u with
    | some oldId =>
      if statusOf s.tasks oldId = some TaskStatus.live then
        s.tasks.map (fun t =>
          if t.id == oldId then { t with status := TaskStatus.cancelled } else t)
      else s.tasks
    | none => s.tasks
  { tasks := tasks1 ++ [⟨s.nextId, u, TaskStatus.live⟩],
    timerMap := mapSet s.timerMap u s.nextId,
    nextId := s.nextId + 1 }

-- A live task's sleep elapses and its debounce_fire body finishes (or
-- unwinds): the task becomes done.
def taskComplete (id : Nat) (s : SchedState) : SchedState :=
  { s with tasks := s.tasks.map (fun t =>
      if t.id == id && t.status == TaskStatus.live then
        { t with status := TaskStatus.completed }
      else t) }

-- The finally block of debounce_fire: t = DEBOUNCE_TASKS.get(user_id);
-- if t and t.done(): DEBOUNCE_TASKS.pop(user_id) — the entry is dropped
-- only when the task on record is no longer live.
def taskCleanup (u : String) (s : SchedState) : SchedState :=
  match mapLookup s.timerMap u with
  | none => s
  | some id =>
    if statusOf s.tasks id = some TaskStatus.live then s
    else { s with timerMap := mapDel s.timerMap u }

-- Interleaved per-user scheduler events: an inbound message for a user
-- (the webhook awaits schedule_debounce), a task running to its end, and
-- the finally-block cleanup.
inductive SchedEvent where
  | message : String → SchedEvent
  | fireDone : Nat → SchedEvent
  | cleanup : String → SchedEvent
deriving DecidableEq, Repr

def schedStep (s : SchedState) : SchedEvent → SchedState
  | SchedEvent.message u => schedule_debounce u s
  | SchedEvent.fireDone id => taskComplete id s
  | SchedEvent.cleanup u => taskCleanup u s

def initSched : SchedState := ⟨[], [], 0⟩

def schedRun (evs : List SchedEvent) : SchedState :=
  evs.foldl schedStep initSched

-- Number of live (neither completed nor cancel-requested) timer tasks a
-- user owns.
def liveCount (s : SchedState) (u : String) : Nat :=
  (s.tasks.filter (fun t => t.user == u && t.status == TaskStatus.live)).length

-- Scheduler invariant: task ids are below the counter and pairwise
-- distinct, and every live task is the one its user's map entry points to.
def SchedInv (s : SchedState) : Prop :=
  (∀ t ∈ s.tasks, t.id < s.nextId) ∧
  (s.tasks.map (fun t => t.id)).Nodup ∧
  (∀ t ∈ s.tasks, t.status = TaskStatus.live →
    mapLookup s.timerMap t.user = some t.id)

-- === Assoc-map lemmas ===

lemma mapLookup_mapSet_self {β : Type} (m : List (String × β)) (u : String) (v : β) :
    mapLookup (mapSet m u v) u = some v := by
  unfold mapLookup mapSet
  rw [List.find?_cons_of_pos]
  · rfl
  · simp

lemma find?_filter_ne {β : Type} (m : List (String × β)) (u u' : String)
    (h : u' ≠ u) :
    (m.filter (fun p => !(p.1 == u))).find? (fun p => p.1 == u') =
      m.find? (fun p => p.1 == u') := by
  induction m with
  | nil => rfl
  | cons a m ih =>
    by_cases ha : (a.1 == u) = true
    · have ha' : ¬((a.1 == u') = true) := by
        have haa : a.1 = u := by simpa using ha
        simp only [haa, beq_iff_eq]
        exact fun hc => h hc.symm
      rw [List.filter_cons_of_neg (by simp [ha]),
        List.find?_cons_of_neg (p := fun q : String × β => q.1 == u') _ ha']
      exact ih
    · rw [List.filter_cons_of_pos (by simp [ha])]
      by_cases hp : (a.1 == u') = true
      · rw [List.find?_cons_of_pos (p := fun q : String × β => q.1 == u') _ hp,
          List.find?_cons_of_pos (p := fun q : String × β => q.1 == u') _ hp]
      · rw [List.find?_cons_of_neg (p := fun q : String × β => q.1 == u') _ hp,
          List.find?_cons_of_neg (p := fun q : String × β => q.1 == u') _ hp]
        exact ih

lemma mapLookup_mapSet_ne {β : Type} (m : List (String × β)) (u u' : String)
    (v : β) (h : u' ≠ u) :
    mapLookup (mapSet m u v) u' = mapLookup m u' := by
  unfold mapLookup mapSet
  rw [List.find?_cons_of_neg]
  · rw [find?_filter_ne m u u' h]
  · simp
    exact fun hc => h hc.symm

lemma mapLookup_mapDel_ne {β : Type} (m : List (String × β)) (u u' : String)
    (h : u' ≠ u) :
    mapLookup (mapDel m u) u' = mapLookup m u' := by
  unfold mapLookup mapDel
  rw [find?_filter_ne m u u' h]

lemma statusOf_mem (tasks : List TaskRec) (t : TaskRec)
    (hnd : (tasks.map (fun t => t.id)).Nodup) (ht : t ∈ tasks) :
    statusOf tasks t.id = some t.status := by
  induction tasks with
  | nil => cases ht
  | cons a rest ih =>
    rw [List.map_cons, List.nodup_cons] at hnd
    rcases List.mem_cons.mp ht with rfl | hmem
    · unfold statusOf
      rw [List.find?_cons_of_pos _ (by simp)]
      rfl
    · have hne : (a.id == t.id) = false := by
        simp only [beq_eq_false_iff_ne, ne_eq]
        intro hc
        exact hnd.1 (hc ▸ List.mem_map_of_mem (fun t => t.id) hmem)
      unfold statusOf at ih ⊢
      rw [List.find?_cons_of_neg _ (by simp [hne])]
      exact ih hnd.2 hmem

lemma ids_map_preserved (tasks : List TaskRec) (f : TaskRec → TaskRec)
    (hf : ∀ t, (f t).id = t.id) :
    (tasks.map f).map (fun t => t.id) = tasks.map (fun t => t.id) := by
  rw [List.map_map]
  apply List.map_congr_left
  intro t _
  exact hf t

lemma schedInv_mapStatus (s : SchedState) (g : TaskRec → TaskRec)
    (hinv : SchedInv s)
    (hid : ∀ t, (g t).id = t.id)
    (hlive : ∀ t, (g t).status = TaskStatus.live → g t = t) :
    SchedInv { s with tasks := s.tasks.map g } := by
  obtain ⟨hbound, hnd, hmap⟩ := hinv
  refine ⟨?_, ?_, ?_⟩
  · intro t ht
    obtain ⟨t0, ht0, rfl⟩ := List.mem_map.mp ht
    rw [hid]
    exact hbound t0 ht0
  · rw [ids_map_preserved s.tasks g hid]
    exact hnd
  · intro t ht hl
    obtain ⟨t0, ht0, rfl⟩ := List.mem_map.mp ht
    have heq := hlive t0 hl
    rw [heq] at hl ⊢
    exact hmap t0 ht0 hl

lemma schedInv_append_new (s : SchedState) (T1 : List TaskRec) (u : String)
    (hids : T1.map (fun t => t.id) = s.tasks.map (fun t => t.id))
    (hbound : ∀ t ∈ s.tasks, t.id < s.nextId)
    (hnd : (s.tasks.map (fun t => t.id)).Nodup)
    (hliveT1 : ∀ t ∈ T1, t.status = TaskStatus.live →
      t.user ≠ u ∧ mapLookup s.timerMap t.user = some t.id) :
    SchedInv { tasks := T1 ++ [⟨s.nextId, u, TaskStatus.live⟩],
               timerMap := mapSet s.timerMap u s.nextId,
               nextId := s.nextId + 1 } := by
  have hboundT1 : ∀ t ∈ T1, t.id < s.nextId := by
    intro t ht
    have hmem : t.id ∈ s.tasks.map (fun t => t.id) := by
      rw [← hids]
      exact List.mem_map_of_mem _ ht
    obtain ⟨t0, ht0, hid0⟩ := List.mem_map.mp hmem
    rw [← hid0]
    exact hbound t0 ht0
  refine ⟨?_, ?_, ?_⟩
  · intro t ht
    rcases List.mem_append.mp ht with h1 | h1
    · have := hboundT1 t h1
      simp only []
      omega
    · rw [List.mem_singleton] at h1
      subst h1
      simp
  · rw [List.map_append, List.nodup_append]
    refine ⟨by rw [hids]; exact hnd, by simp, ?_⟩
    intro a ha hb
    simp only [List.map_cons, List.map_nil, List.mem_singleton] at hb
    rw [hids] at ha
    obtain ⟨t0, ht0, hid0⟩ := List.mem_map.mp ha
    have := hbound t0 ht0
    omega
  · intro t ht hl
    rcases List.mem_append.mp ht with h1 | h1
    · obtain ⟨hne, hlk⟩ := hliveT1 t h1 hl
      rw [mapLookup_mapSet_ne s.timerMap u t.user s.nextId hne]
      exact hlk
    · rw [List.mem_singleton] at h1
      subst h1
      exact mapLookup_mapSet_self s.timerMap u s.nextId

lemma schedInv_schedule (u : String) (s : SchedState) (hinv : SchedInv s) :
    SchedInv (schedule_debounce u s) := by
  obtain ⟨hbound, hnd, hmap⟩ := hinv
  simp only [schedule_debounce]
  split
  next oldId hm =>
    split
    next hst =>
      refine schedInv_append_new s _ u
        (ids_map_preserved s.tasks _ (fun t => by split <;> rfl)) hbound hnd ?_
      intro t ht hl
      obtain ⟨t0, ht0, rfl⟩ := List.mem_map.mp ht
      by_cases hc : (t0.id == oldId) = true
      · rw [if_pos hc] at hl
        simp at hl
      · rw [if_neg hc] at hl ⊢
        have hlk := hmap t0 ht0 hl
        refine ⟨?_, hlk⟩
        intro hequ
        rw [hequ, hm] at hlk
        have hoid : oldId = t0.id := by injection hlk
        apply hc
        simp [hoid]
    next hst =>
      refine schedInv_append_new s s.tasks u rfl hbound hnd ?_
      intro t ht hl
      have hlk := hmap t ht hl
      refine ⟨?_, hlk⟩
      intro hequ
      rw [hequ, hm] at hlk
      have hoid : oldId = t.id := by injection hlk
      apply hst
      rw [hoid, statusOf_mem s.tasks t hnd ht, hl]
  next hm =>
    refine schedInv_append_new s s.tasks u rfl hbound hnd ?_
    intro t ht hl
    have hlk := hmap t ht hl
    refine ⟨?_, hlk⟩
    intro hequ
    rw [hequ, hm] at hlk
    exact Option.noConfusion hlk

lemma schedInv_complete (id : Nat) (s : SchedState) (hinv : SchedInv s) :
    SchedInv (taskComplete id s) := by
  refine schedInv_mapStatus s _ hinv (fun t => by split <;> rfl) ?_
  intro t hl
  by_cases hc : (t.id == id && t.status == TaskStatus.live) = true
  · rw [if_pos hc] at hl
    simp at hl
  · exact if_neg hc

lemma schedInv_cleanup (u : String) (s : SchedState) (hinv : SchedInv s) :
    SchedInv (taskCleanup u s) := by
  obtain ⟨hbound, hnd, hmap⟩ := hinv
  simp only [taskCleanup]
  split
  next hm => exact ⟨hbound, hnd, hmap⟩
  next id hm =>
    split
    next hst => exact ⟨hbound, hnd, hmap⟩
    next hst =>
      refine ⟨hbound, hnd, ?_⟩
      intro t ht hl
      have hlk := hmap t ht hl
      have hneq : t.user ≠ u := by
        intro hequ
        rw [hequ, hm] at hlk
        have hoid : id = t.id := by injection hlk
        apply hst
        rw [hoid, statusOf_mem s.tasks t hnd ht, hl]
      rw [mapLookup_mapDel_ne s.timerMap u t.user hneq]
      exact hlk

lemma schedInv_step (s : SchedState) (e : SchedEvent) (hinv : SchedInv s) :
    SchedInv (schedStep s e) := by
  cases e with
  | message u => exact schedInv_schedule u s hinv
  | fireDone id => exact schedInv_complete id s hinv
  | cleanup u => exact schedInv_cleanup u s hinv

lemma schedInv_init : SchedInv initSched := by
  refine ⟨?_, ?_, ?_⟩ <;> simp [initSched]

lemma schedInv_run (evs : List SchedEvent) : SchedInv (schedRun evs) := by
  rw [schedRun]
  have hgen : ∀ s, SchedInv s → SchedInv (evs.foldl schedStep s) := by
    induction evs with
    | nil => intro s h; exact h
    | cons e rest ih =>
      intro s h
      exact ih (schedStep s e) (schedInv_step s e h)
  exact hgen initSched schedInv_init

lemma nodup_all_eq_length_le_one {α : Type} (l : List α) (k : α) (hnd : l.Nodup)
    (hall : ∀ x ∈ l, x = k) : l.length ≤ 1 := by
  cases l with
  | nil => simp
  | cons a t =>
    cases t with
    | nil => simp
    | cons b t2 =>
      exfalso
      have ha := hall a (by simp)
      have hb := hall b (by simp)
      rw [List.nodup_cons] at hnd
      exact hnd.1 (by simp [ha, hb])

lemma liveCount_le_one_of_inv (s : SchedState) (hinv : SchedInv s) (u : String) :
    liveCount s u ≤ 1 := by
  obtain ⟨hbound, hnd, hmap⟩ := hinv
  rw [liveCount]
  cases hmu : mapLookup s.timerMap u with
  | none =>
    have hnil : s.tasks.filter
        (fun t => t.user == u && t.status == TaskStatus.live) = [] := by
      rw [List.filter_eq_nil_iff]
      intro t ht hcond
      rw [Bool.and_eq_true, beq_iff_eq, beq_iff_eq] at hcond
      have := hmap t ht hcond.2
      rw [hcond.1, hmu] at this
      exact Option.noConfusion this
    rw [hnil]
    simp
  | some k =>
    have hsub : (s.tasks.filter
        (fun t => t.user == u && t.status == TaskStatus.live)).Sublist s.tasks :=
      List.filter_sublist s.tasks
    have hndf : ((s.tasks.filter
        (fun t => t.user == u && t.status == TaskStatus.live)).map
          (fun t => t.id)).Nodup :=
      hnd.sublist (hsub.map (fun t => t.id))
    have hall : ∀ x ∈ (s.tasks.filter
        (fun t => t.user == u && t.status == TaskStatus.live)).map
          (fun t => t.id), x = k := by
      intro x hx
      obtain ⟨t, ht, rfl⟩ := List.mem_map.mp hx
      obtain ⟨ht1, ht2⟩ := List.mem_filter.mp ht
      rw [Bool.and_eq_true, beq_iff_eq, beq_iff_eq] at ht2
      have hlk := hmap t ht1 ht2.2
      rw [ht2.1, hmu] at hlk
      injection hlk with hh
      exact hh.symm
    calc (s.tasks.filter
        (fun t => t.user == u && t.status == TaskStatus.live)).length
        = ((s.tasks.filter
            (fun t => t.user == u && t.status == TaskStatus.live)).map
              (fun t => t.id)).length := (List.length_map _ _).symm
      _ ≤ 1 := nodup_all_eq_length_le_one _ k hndf hall

/-- C3: over every interleaving of scheduler events (inbound messages that
run schedule_debounce, tasks finishing their fire, cleanup of done map
entries), every user owns at most one live (not completed, not
cancel-requested) debounce timer task at any instant: schedule_debounce
cancels a still-live predecessor before installing its replacement, so two
Aggregation cycles for one user are never in flight concurrently. -/
theorem at_most_one_live_timer (evs : List SchedEvent) (u : String) :
    liveCount (schedRun evs) u ≤ 1 :=
  liveCount_le_one_of_inv (schedRun evs) (schedInv_run evs) u
